import Mathlib

/-!
Verification of the deterministic text-processing core of the timmy-agent
repository: the message-segmentation engine, the structured-content
detector/assembler (`core/processors/response.py`), the target-field
extraction and capture state (`core/processors/target.py`), and the
conversation-phase classifier (`core/conversation_strategy.py`).

Texts are modelled as `List Char` (Python `str`). Python floats are modelled
as exact rationals: every comparison the code performs against the constants
0.5 and 0.7 yields the same boolean under IEEE-754 double arithmetic as
under exact arithmetic (in particular `0.3 + 0.4` rounds to the double `0.7`
by round-half-to-even, so `0.3 + 0.4 > 0.7` is `False` in Python, matching
the rationals). Recursive scanners take a fuel argument equal to the input
length so that they are structurally recursive and evaluable by `decide`;
the fuel-0 branch coincides with the semantics of the exhausted input.
-/

set_option autoImplicit false

namespace Timmy

abbrev Text := List Char

/-- Python `str.isspace` characters as used by `\s` and `strip()` on the
ASCII range (the repository's texts contain no non-ASCII whitespace). -/
def pyIsSpace (c : Char) : Bool :=
  c = ' ' || c = '\t' || c = '\n' || c = '\r' || c = '\x0b' || c = '\x0c'

/-- Python `str.strip()`. -/
def pyStrip (cs : Text) : Text :=
  ((cs.dropWhile pyIsSpace).reverse.dropWhile pyIsSpace).reverse

/-- Python `str.lower()` (ASCII case mapping; all non-ASCII characters in
the texts under consideration are already lowercase). -/
def pyLower (cs : Text) : Text := cs.map Char.toLower

/-- Accumulator-based splitter for Python `str.split()` (split on whitespace
runs, dropping empty pieces). `acc` holds the current word reversed. -/
def splitWSAux : Text → Text → List Text
  | acc, [] => if acc = [] then [] else [acc.reverse]
  | acc, c :: cs =>
    if pyIsSpace c then
      if acc = [] then splitWSAux [] cs else acc.reverse :: splitWSAux [] cs
    else splitWSAux (c :: acc) cs

/-- Python `str.split()` with no argument. -/
def pySplitWS (cs : Text) : List Text := splitWSAux [] cs

/-- Accumulator-based splitter for Python `str.split('\n')` (keeps empty
pieces). -/
def splitLinesAux : Text → Text → List Text
  | acc, [] => [acc.reverse]
  | acc, c :: cs =>
    if c = '\n' then acc.reverse :: splitLinesAux [] cs
    else splitLinesAux (c :: acc) cs

/-- Python `str.split('\n')`. -/
def pySplitLines (cs : Text) : List Text := splitLinesAux [] cs

/-- Python `" ".join(pieces)`. -/
def joinSpace : List Text → Text
  | [] => []
  | [p] => p
  | p :: ps => p ++ ' ' :: joinSpace ps

/-- Python substring test `needle in hay`. -/
def containsSub (needle hay : Text) : Bool :=
  hay.tails.any (fun t => needle.isPrefixOf t)

/-- Case-insensitive (via `lower`) check that `pat` starts `s`, used for
`re.IGNORECASE` matching of a literal. -/
def ciStarts (pat s : Text) : Bool :=
  (pyLower pat).isPrefixOf (pyLower s)

theorem length_dropWhile_le (p : Char → Bool) (cs : Text) :
    (cs.dropWhile p).length ≤ cs.length :=
  (List.dropWhile_suffix p).length_le

theorem length_pyStrip_le (cs : Text) : (pyStrip cs).length ≤ cs.length := by
  have h1 := length_dropWhile_le pyIsSpace cs
  have h2 := length_dropWhile_le pyIsSpace (cs.dropWhile pyIsSpace).reverse
  simp only [pyStrip, List.length_reverse]
  simp only [List.length_reverse] at h2
  omega

theorem pyStrip_of_noSpace (cs : Text) (h : ∀ c ∈ cs, pyIsSpace c = false) :
    pyStrip cs = cs := by
  have h1 : cs.dropWhile pyIsSpace = cs := by
    cases cs with
    | nil => rfl
    | cons a l =>
      rw [List.dropWhile_cons_of_neg]
      simp [h a (by simp)]
  have h2 : cs.reverse.dropWhile pyIsSpace = cs.reverse := by
    cases hr : cs.reverse with
    | nil => rfl
    | cons a l =>
      rw [List.dropWhile_cons_of_neg]
      have : a ∈ cs := by
        have : a ∈ cs.reverse := by rw [hr]; simp
        simpa using this
      simp [h a this]
  simp only [pyStrip, h1, h2, List.reverse_reverse]

theorem splitWSAux_words_clean (acc cs : Text)
    (hacc : ∀ c ∈ acc, pyIsSpace c = false) :
    ∀ w ∈ splitWSAux acc cs, w ≠ [] ∧ ∀ c ∈ w, pyIsSpace c = false := by
  induction cs generalizing acc with
  | nil =>
    intro w hw
    simp only [splitWSAux] at hw
    split at hw
    · simp at hw
    · next hne =>
      simp only [List.mem_singleton] at hw
      subst hw
      refine ⟨by simpa using hne, ?_⟩
      intro c hc
      exact hacc c (by simpa using hc)
  | cons a l ih =>
    intro w hw
    simp only [splitWSAux] at hw
    split at hw
    · split at hw
      · exact ih [] (by simp) w hw
      · next hne =>
        rcases List.mem_cons.mp hw with h | h
        · subst h
          refine ⟨by simpa using hne, ?_⟩
          intro c hc
          exact hacc c (by simpa using hc)
        · exact ih [] (by simp) w h
    · next hsp =>
      refine ih (a :: acc) ?_ w hw
      intro c hc
      rcases List.mem_cons.mp hc with h | h
      · subst h; simpa using hsp
      · exact hacc c h

theorem splitWSAux_of_noSpace (cs : Text) :
    ∀ acc : Text, (∀ c ∈ cs, pyIsSpace c = false) →
      splitWSAux acc cs = if acc.reverse ++ cs = [] then [] else [acc.reverse ++ cs] := by
  induction cs with
  | nil =>
    intro acc _
    rcases acc with _ | ⟨a, l⟩ <;> simp [splitWSAux]
  | cons a l ih =>
    intro acc h
    have ha : pyIsSpace a = false := h a (by simp)
    simp only [splitWSAux, ha]
    rw [if_neg (by simp [Bool.false_ne_true])]
    rw [ih (a :: acc) (fun c hc => h c (by simp [hc]))]
    simp

theorem pySplitWS_single_token (cs : Text) (hne : cs ≠ [])
    (h : ∀ c ∈ cs, pyIsSpace c = false) : pySplitWS cs = [cs] := by
  unfold pySplitWS
  rw [splitWSAux_of_noSpace cs [] h]
  simp [hne]

/-! ## ResponseProcessor segmentation (core/processors/response.py) -/

/-- `ResponseConfig` dataclass (defaults from the source). -/
structure ResponseConfig where
  min_chars : Nat := 80
  max_chars : Nat := 200
  use_emojis : Bool := false
  tone : Text := "profissional".toList
  style : Text := "direto".toList
  formality : Text := "moderada".toList
  structured_threshold : Nat := 150

/-- Sentence-ending punctuation of `(?<=[.!?])\s+`. -/
def isStrongPunct (c : Char) : Bool := c = '.' || c = '!' || c = '?'

/-- Pause punctuation of `[,:;]\s+`. -/
def isPausePunct (c : Char) : Bool := c = ',' || c = ':' || c = ';'

/-- `re.split(r'(?<=[.!?])\s+', text)`: a maximal run of whitespace preceded
by `.`, `!` or `?` separates pieces; separators are discarded, pieces keep
their punctuation. `acc` is the current piece reversed; the fuel equals the
remaining input length (the fuel-0 branch is only reached on empty input,
where it agrees with the base case). -/
def splitSentFuel : Nat → Text → Text → List Text
  | 0, acc, _ => [acc.reverse]
  | _ + 1, acc, [] => [acc.reverse]
  | fuel + 1, acc, c :: cs =>
    if pyIsSpace c && (match acc with | p :: _ => isStrongPunct p | [] => false) then
      acc.reverse :: splitSentFuel fuel [] ((c :: cs).dropWhile pyIsSpace)
    else splitSentFuel fuel (c :: acc) cs

def splitSentences (cs : Text) : List Text := splitSentFuel cs.length [] cs

/-- End positions of the non-overlapping matches of `re.finditer(r'[,:;]\s+', text)`
(`match.end()`: the index just past the greedy whitespace run). `pos` is the
absolute index of the head of the remaining input. -/
def pausePointsFuel : Nat → Nat → Text → List Nat
  | 0, _, _ => []
  | _ + 1, _, [] => []
  | fuel + 1, pos, c :: cs =>
    if isPausePunct c && (match cs with | w :: _ => pyIsSpace w | [] => false) then
      let wsLen := (cs.takeWhile pyIsSpace).length
      (pos + 1 + wsLen) :: pausePointsFuel fuel (pos + 1 + wsLen) (cs.drop wsLen)
    else pausePointsFuel fuel (pos + 1) cs

def pausePoints (cs : Text) : List Nat := pausePointsFuel cs.length 0 cs

/-- The `best_break` scan of `_break_by_natural_pauses`: the last pause point
`p` with `min_chars <= p <= max_chars` survives the fold. -/
def bestBreak (cfg : ResponseConfig) (points : List Nat) : Option Nat :=
  points.foldl
    (fun acc p => if cfg.min_chars ≤ p && p ≤ cfg.max_chars then some p else acc)
    none

/-- One step of the greedy word-packing loop of `_break_by_words`:
state is `(groups, current_group)`. -/
def wordStep (cfg : ResponseConfig) : List Text × Text → Text → List Text × Text
  | (groups, current), word =>
    let test := if current = [] then word else pyStrip (current ++ ' ' :: word)
    if test.length ≤ cfg.max_chars then (groups, test)
    else if current ≠ [] then (groups ++ [pyStrip current], word)
    else (groups ++ [word], current)

/-- `_break_by_words`: greedy packing of whitespace-delimited tokens; a
single long token is returned whole. -/
def breakByWords (cfg : ResponseConfig) (text : Text) : List Text :=
  let words := pySplitWS text
  if words.length ≤ 1 then [text]
  else
    let st := words.foldl (wordStep cfg) ([], [])
    let groups := if st.2 ≠ [] then st.1 ++ [pyStrip st.2] else st.1
    if groups = [] then [text] else groups

/-- `_break_by_natural_pauses`: split at the best pause point (the last one
inside `[min_chars, max_chars]`) and recurse on both stripped halves; with
no qualifying pause point, fall back to word packing. The fuel equals the
text length; the fuel-0 branch is only reached on empty input, where it
agrees with the `len(text) <= max_chars` case. -/
def breakPausesFuel (cfg : ResponseConfig) : Nat → Text → List Text
  | 0, t => [t]
  | fuel + 1, t =>
    if t.length ≤ cfg.max_chars then [t]
    else
      match bestBreak cfg (pausePoints t) with
      | some b =>
        breakPausesFuel cfg fuel (pyStrip (t.take b)) ++
          breakPausesFuel cfg fuel (pyStrip (t.drop b))
      | none => breakByWords cfg t

def breakByNaturalPauses (cfg : ResponseConfig) (t : Text) : List Text :=
  breakPausesFuel cfg t.length t

/-- One step of the sentence-grouping loop of `_group_sentences`:
state is `(groups, current_group)`. -/
def groupStep (cfg : ResponseConfig) : List Text × Text → Text → List Text × Text
  | (groups, current), s =>
    if s.length > cfg.max_chars then
      let groups1 := if current ≠ [] then groups ++ [pyStrip current] else groups
      (groups1 ++ breakByNaturalPauses cfg s, [])
    else
      let test := if current = [] then s else pyStrip (current ++ ' ' :: s)
      if test.length ≤ cfg.max_chars then (groups, test)
      else ((if current ≠ [] then groups ++ [pyStrip current] else groups), s)

/-- `_group_sentences`. In the source the final `groups if groups else [text]`
names an undefined variable `text` (a `NameError`); that branch is
unreachable from `_break_text_intelligently`, which always passes a
sentence list with a non-empty member, and is modelled as `[]`. -/
def groupSentences (cfg : ResponseConfig) (sentences : List Text) : List Text :=
  let st := sentences.foldl (groupStep cfg) ([], [])
  let groups := if st.2 ≠ [] then st.1 ++ [pyStrip st.2] else st.1
  groups

/-- `_break_text_intelligently`, the segmentation entry point. -/
def breakTextIntelligently (cfg : ResponseConfig) (text : Text) : List Text :=
  if text.length ≤ cfg.max_chars then [text]
  else
    let sentences := splitSentences text
    if sentences.length > 1 then groupSentences cfg sentences
    else breakByNaturalPauses cfg text

/-! ## Content-structure analysis (`_analyze_content_structure`,
`_choose_formatting_strategy`) -/

/-- Matcher for one occurrence of `\d+\.\s+` at the head of the input
(a numbered-list marker); returns the remainder after the greedy
whitespace run. `\s` may consume newlines. -/
def matchNumberedHead (cs : Text) : Option Text :=
  let digits := cs.takeWhile Char.isDigit
  if digits = [] then none
  else
    match cs.drop digits.length with
    | '.' :: r2 =>
      let ws := r2.takeWhile pyIsSpace
      if ws = [] then none else some (r2.drop ws.length)
    | _ => none

/-- Matcher for one occurrence of `[\-\*\•]\s+` at the head of the input. -/
def matchBulletHead (cs : Text) : Option Text :=
  match cs with
  | c :: r1 =>
    if c = '-' || c = '*' || c = '•' then
      let ws := r1.takeWhile pyIsSpace
      if ws = [] then none else some (r1.drop ws.length)
    else none
  | [] => none

/-- Matcher for one occurrence of `\*\*[^*]+\*\*:` at the head of the input
(`[^*]+` is greedy and cannot backtrack usefully, so the match is the
maximal star-free run followed by the literal `**:`). -/
def matchTitleHead (cs : Text) : Option Text :=
  match cs with
  | '*' :: '*' :: r1 =>
    let body := r1.takeWhile (fun c => c ≠ '*')
    if body = [] then none
    else
      match r1.drop body.length with
      | '*' :: '*' :: ':' :: rest => some rest
      | _ => none
  | _ => none

/-- `len(re.findall(pat, text, re.MULTILINE))` for a `^`-anchored pattern:
scan left to right, attempting the matcher only at line starts, resuming
after each non-overlapping match. `atStart` tells whether the current
position starts a line; after a match it is recomputed from the last
consumed character. The fuel equals the remaining length. -/
def countAnchoredFuel (m : Text → Option Text) : Nat → Bool → Text → Nat
  | 0, _, _ => 0
  | _ + 1, _, [] => 0
  | fuel + 1, atStart, c :: cs =>
    if atStart then
      match m (c :: cs) with
      | some r =>
        let consumed := (c :: cs).take ((c :: cs).length - r.length)
        1 + countAnchoredFuel m fuel (consumed.getLast? = some '\n') r
      | none => countAnchoredFuel m fuel (c = '\n') cs
    else countAnchoredFuel m fuel (c = '\n') cs

/-- `len(re.findall(r'^\d+\.\s+', text, re.MULTILINE))`. -/
def countNumberedItems (cs : Text) : Nat :=
  countAnchoredFuel matchNumberedHead cs.length true cs

/-- `len(re.findall(r'^[\-\*\•]\s+', text, re.MULTILINE))`. -/
def countBulletItems (cs : Text) : Nat :=
  countAnchoredFuel matchBulletHead cs.length true cs

/-- `len(re.findall(pat, text))` for an unanchored pattern: try the matcher
at every position, left to right, non-overlapping. -/
def countAnywhereFuel (m : Text → Option Text) : Nat → Text → Nat
  | 0, _ => 0
  | _ + 1, [] => 0
  | fuel + 1, c :: cs =>
    match m (c :: cs) with
    | some r => 1 + countAnywhereFuel m fuel r
    | none => countAnywhereFuel m fuel cs

/-- `len(re.findall(r'\*\*[^*]+\*\*:', text))`. -/
def countTitleItems (cs : Text) : Nat :=
  countAnywhereFuel matchTitleHead cs.length cs

/-- Result record of `_analyze_content_structure`. Python's float score is
modelled as an exact rational (see the file header). -/
structure ContentAnalysis where
  has_numbered_list : Bool
  has_bullet_points : Bool
  has_titles : Bool
  item_count : Nat
  complexity_score : ℚ

/-- `_analyze_content_structure`. -/
def analyzeContentStructure (text : Text) : ContentAnalysis :=
  let numbered := countNumberedItems text
  let bullets := countBulletItems text
  let titles := countTitleItems text
  let count1 := if numbered ≠ 0 then numbered else 0
  let count2 := if bullets ≠ 0 then max count1 bullets else count1
  let count3 := if titles ≠ 0 then max count2 titles else count2
  let factors : List ℚ :=
    (if count3 > 0 then [(count3 : ℚ) * (3 / 10)] else []) ++
    (if titles ≠ 0 then [4 / 10] else []) ++
    (if (pySplitLines text).length > 3 then [3 / 10] else [])
  { has_numbered_list := numbered ≠ 0
    has_bullet_points := bullets ≠ 0
    has_titles := titles ≠ 0
    item_count := count3
    complexity_score := factors.sum }

/-- `_choose_formatting_strategy`. -/
def chooseFormattingStrategy (a : ContentAnalysis) (cfg : ResponseConfig)
    (textLength : Nat) : String :=
  if 3 ≤ a.item_count || a.complexity_score > 7 / 10 then "structured"
  else if textLength > cfg.max_chars && a.complexity_score < 5 / 10 then "micro"
  else if textLength ≤ cfg.max_chars then "single"
  else "micro"

/-! ## Structured-content parsing and assembly
(`_parse_structured_content`, `_format_single_item`,
`_apply_structured_formatting`) -/

/-- One parsed item dictionary. `number` is present only for the numbered
kinds; every constructed item has a title and details. -/
structure PItem where
  number : Option Text
  title : Text
  details : Text
  ptype : String
deriving DecidableEq

/-- `re.match(r'^(\d+)\.\s*\*\*([^*]+)\*\*:\s*(.*)', line)`: returns the
three groups. Each greedy piece is forced (digits before `.`, star-free
run before `**:`, whitespace before the final greedy `.*`), so the match
is computed without backtracking. -/
def matchNumberedTitle (line : Text) : Option (Text × Text × Text) :=
  let digits := line.takeWhile Char.isDigit
  if digits = [] then none
  else
    match line.drop digits.length with
    | '.' :: r1 =>
      let r2 := r1.dropWhile pyIsSpace
      match r2 with
      | '*' :: '*' :: r3 =>
        let body := r3.takeWhile (fun c => c ≠ '*')
        if body = [] then none
        else
          match r3.drop body.length with
          | '*' :: '*' :: ':' :: r4 => some (digits, body, r4.dropWhile pyIsSpace)
          | _ => none
      | _ => none
    | _ => none

/-- `re.match(r'^(\d+)\.\s*([^:]+):\s*(.*)', line)`. The `\s*` before
`([^:]+)` backs off one character when the first non-space character is the
colon itself, so the engine's group 2 is: the text from the end of the
whitespace run to the first colon when that is non-empty, else the single
whitespace character just before the colon (and the match fails when the
colon is immediately after the dot or absent). -/
def matchNumberedSimple (line : Text) : Option (Text × Text × Text) :=
  let digits := line.takeWhile Char.isDigit
  if digits = [] then none
  else
    match line.drop digits.length with
    | '.' :: r1 =>
      let wsLen := (r1.takeWhile pyIsSpace).length
      let colonIdx := (r1.takeWhile (fun c => c ≠ ':')).length
      if colonIdx = r1.length then none
      else if colonIdx = 0 then none
      else if colonIdx > wsLen then
        some (digits, (r1.drop wsLen).take (colonIdx - wsLen),
          (r1.drop (colonIdx + 1)).dropWhile pyIsSpace)
      else
        some (digits, (r1.drop (colonIdx - 1)).take 1,
          (r1.drop (colonIdx + 1)).dropWhile pyIsSpace)
    | _ => none

/-- `re.match(r'^\*\*([^*]+)\*\*:\s*(.*)', line)`. -/
def matchTitleOnly (line : Text) : Option (Text × Text) :=
  match line with
  | '*' :: '*' :: r1 =>
    let body := r1.takeWhile (fun c => c ≠ '*')
    if body = [] then none
    else
      match r1.drop body.length with
      | '*' :: '*' :: ':' :: r2 => some (body, r2.dropWhile pyIsSpace)
      | _ => none
  | _ => none

/-- `re.match(r'^[\-\*\•]\s*\*\*([^*]+)\*\*:\s*(.*)', line)`. -/
def matchBulletTitle (line : Text) : Option (Text × Text) :=
  match line with
  | c :: r1 =>
    if c = '-' || c = '*' || c = '•' then
      match r1.dropWhile pyIsSpace with
      | '*' :: '*' :: r2 =>
        let body := r2.takeWhile (fun c => c ≠ '*')
        if body = [] then none
        else
          match r2.drop body.length with
          | '*' :: '*' :: ':' :: r3 => some (body, r3.dropWhile pyIsSpace)
          | _ => none
      | _ => none
    else none
  | [] => none

/-- Parser state of `_parse_structured_content`: the current section name,
the open item, and the accumulated intro lines, items and outro lines
(the latter in order). -/
structure ParseState where
  section_ : String
  currentItem : Option PItem
  introLines : List Text
  items : List PItem
  outroLines : List Text

/-- Processing of one non-empty stripped line of `_parse_structured_content`. -/
def parseLineStep (st : ParseState) (line : Text) : ParseState :=
  match matchNumberedTitle line with
  | some (num, ttl, det) =>
    { st with
      section_ := "items"
      items := st.items ++ (match st.currentItem with | some it => [it] | none => [])
      currentItem := some ⟨some num, pyStrip ttl, pyStrip det, "numbered_title"⟩ }
  | none =>
  match matchNumberedSimple line with
  | some (num, ttl, det) =>
    { st with
      section_ := "items"
      items := st.items ++ (match st.currentItem with | some it => [it] | none => [])
      currentItem := some ⟨some num, pyStrip ttl, pyStrip det, "numbered_simple"⟩ }
  | none =>
  match matchTitleOnly line with
  | some (ttl, det) =>
    { st with
      section_ := "items"
      items := st.items ++ (match st.currentItem with | some it => [it] | none => [])
      currentItem := some ⟨none, pyStrip ttl, pyStrip det, "title_only"⟩ }
  | none =>
  match matchBulletTitle line with
  | some (ttl, det) =>
    { st with
      section_ := "items"
      items := st.items ++ (match st.currentItem with | some it => [it] | none => [])
      currentItem := some ⟨none, pyStrip ttl, pyStrip det, "bullet_title"⟩ }
  | none =>
    if st.section_ = "intro" && st.items = [] then
      { st with introLines := st.introLines ++ [line] }
    else
      match st.currentItem with
      | some it =>
        if st.section_ = "items" then
          { st with currentItem := some { it with
              details := if it.details ≠ [] then it.details ++ ' ' :: line
                         else line } }
        else if st.items ≠ [] then
          { st with section_ := "outro", outroLines := st.outroLines ++ [line] }
        else { st with introLines := st.introLines ++ [line] }
      | none =>
        if st.items ≠ [] then
          { st with section_ := "outro", outroLines := st.outroLines ++ [line] }
        else { st with introLines := st.introLines ++ [line] }

/-- `_parse_structured_content`: returns `(intro_text, items, outro_text)`. -/
def parseStructuredContent (text : Text) : Text × List PItem × Text :=
  let lines := (pySplitLines (pyStrip text)).map pyStrip
  let nonEmpty := lines.filter (fun l => l ≠ [])
  let st := nonEmpty.foldl parseLineStep
    ⟨"intro", none, [], [], []⟩
  let items := st.items ++ (match st.currentItem with | some it => [it] | none => [])
  (pyStrip (joinSpace st.introLines), items, pyStrip (joinSpace st.outroLines))

/-- `_format_single_item` (the `config` argument is unused in the source as
well). The default branch returns the details: every item built by the
parser carries one of the four explicit types and a `details` entry. -/
def formatSingleItem (item : PItem) (_cfg : ResponseConfig) : Text :=
  if item.ptype = "numbered_title" then
    item.number.getD [] ++ ". **".toList ++ item.title ++ "**: ".toList ++ item.details
  else if item.ptype = "numbered_simple" then
    item.number.getD [] ++ ". ".toList ++ item.title ++ ": ".toList ++ item.details
  else if item.ptype = "title_only" then
    "**".toList ++ item.title ++ "**: ".toList ++ item.details
  else if item.ptype = "bullet_title" then
    "• **".toList ++ item.title ++ "**: ".toList ++ item.details
  else item.details

/-! ## Response assembly (`process_response` and the three
`_apply_*_formatting` paths). The tenant-specific formatter lookup is the
identity here: `_formatters` is empty at construction (the registry loading
loop is a `pass`). -/

/-- `FormattedResponse` dataclass; metadata is the string-to-int part of the
Python dict. -/
structure FormattedResponse where
  messages : List Text
  total_parts : Nat
  formatting_applied : String
  metadata : List (String × Nat)
deriving DecidableEq

/-- `ResponseContext` dataclass (history and extracted info are carried as
opaque association lists; none of the generic formatting paths reads them). -/
structure ResponseContext where
  user_message : Text
  conversation_history : List (Text × Text)
  extracted_info : List (Text × Text)
  intent : Text
  tenant_id : Text
  session_key : Text

/-- Characters removed by the emoji regex of `_apply_basic_formatting`. -/
def isEmojiChar (c : Char) : Bool :=
  let n := c.toNat
  (0x1F600 ≤ n && n ≤ 0x1F64F) || (0x1F300 ≤ n && n ≤ 0x1F5FF) ||
  (0x1F680 ≤ n && n ≤ 0x1F6FF) || (0x1F1E0 ≤ n && n ≤ 0x1F1FF) ||
  (0x2700 ≤ n && n ≤ 0x27BF) || (0x1F926 ≤ n && n ≤ 0x1F937) ||
  (0x10000 ≤ n && n ≤ 0x10FFFF) || (0x2640 ≤ n && n ≤ 0x2642) ||
  (0x2600 ≤ n && n ≤ 0x2B55) || n = 0x200D || n = 0x23CF || n = 0x23E9 ||
  n = 0x231A || n = 0xFE0F || n = 0x3030

/-- `_apply_basic_formatting`. -/
def applyBasicFormatting (text : Text) (cfg : ResponseConfig) : Text :=
  let formatted := if cfg.use_emojis then text
                   else text.filter (fun c => ¬ isEmojiChar c)
  pyStrip formatted

/-- `_apply_structured_formatting` (generic path). -/
def applyStructuredFormatting (text : Text) (cfg : ResponseConfig)
    (_ctx : ResponseContext) : FormattedResponse :=
  let p := parseStructuredContent text
  let intro := p.1
  let items := p.2.1
  let outro := p.2.2
  let introParts := if intro ≠ [] then breakTextIntelligently cfg intro else []
  let itemMsgs := items.map (fun it => formatSingleItem it cfg)
  let outroParts := if outro ≠ [] then breakTextIntelligently cfg outro else []
  let messages := introParts ++ itemMsgs ++ outroParts
  { messages := messages
    total_parts := messages.length
    formatting_applied := "structured"
    metadata := [("intro_length", intro.length), ("items_count", items.length),
                 ("outro_length", outro.length)] }

/-- `_apply_micro_formatting` (generic path). -/
def applyMicroFormatting (text : Text) (cfg : ResponseConfig)
    (_ctx : ResponseContext) : FormattedResponse :=
  let messages := breakTextIntelligently cfg text
  { messages := messages
    total_parts := messages.length
    formatting_applied := "micro"
    metadata := [("original_length", text.length)] }

/-- `_apply_single_formatting`. -/
def applySingleFormatting (text : Text) (cfg : ResponseConfig)
    (_ctx : ResponseContext) : FormattedResponse :=
  let formatted := applyBasicFormatting text cfg
  { messages := [formatted]
    total_parts := 1
    formatting_applied := "single"
    metadata := [("length", formatted.length)] }

/-- `process_response`. -/
def processResponse (raw : Text) (ctx : ResponseContext)
    (cfg : ResponseConfig) : FormattedResponse :=
  if pyStrip raw = [] then
    { messages := [[]], total_parts := 0, formatting_applied := "empty",
      metadata := [] }
  else
    let analysis := analyzeContentStructure raw
    let strategy := chooseFormattingStrategy analysis cfg raw.length
    if strategy = "structured" then applyStructuredFormatting raw cfg ctx
    else if strategy = "micro" then applyMicroFormatting raw cfg ctx
    else applySingleFormatting raw cfg ctx

/-! ## Target capture (core/processors/target.py) -/

/-- `TargetField` dataclass. `validation_pattern` is an arbitrary regex in
the source; it is modelled by its match predicate. -/
structure TargetField where
  field_name : Text
  display_name : Text
  field_type : String
  required : Bool := false
  choices : List Text := []
  validation_pattern : Option (Text → Bool) := none
  prompt_triggers : List Text := []

/-- `TargetCapture` dataclass. -/
structure TargetCapture where
  tenant_id : Text
  target_name : Text
  description : Text
  fields : List TargetField := []
  completion_triggers : List Text := []
  auto_capture : Bool := true

/-- Association-list lookup mirroring Python `dict` access
(`key in d and d[key]`-style reads). -/
def dictGet : List (Text × Text) → Text → Option Text
  | [], _ => none
  | p :: rest, k => if p.1 = k then some p.2 else dictGet rest k

/-- Python `dict` assignment `d[k] = v`: overwrite in place if the key
exists (dicts built by repeated assignment hold each key once), else
append, preserving insertion order. -/
def dictInsert : List (Text × Text) → Text → Text → List (Text × Text)
  | [], k, v => [(k, v)]
  | p :: rest, k, v =>
    if p.1 = k then (k, v) :: rest else p :: dictInsert rest k v

/-- Merging one dict into another (`captured.update(extracted)` semantics). -/
def dictMerge (old new_ : List (Text × Text)) : List (Text × Text) :=
  new_.foldl (fun acc p => dictInsert acc p.1 p.2) old

/-- `TargetCapture.get_required_fields`. -/
def TargetCapture.get_required_fields (tc : TargetCapture) : List TargetField :=
  tc.fields.filter (fun f => f.required)

/-- `TargetCapture.is_complete`: every required field is present with a
truthy (non-empty) value. -/
def TargetCapture.is_complete (tc : TargetCapture)
    (captured : List (Text × Text)) : Bool :=
  (tc.get_required_fields).all fun f =>
    match dictGet captured f.field_name with
    | some v => v ≠ []
    | none => false

/-- The Python exception raised by the `phone` branch of
`SmartTargetProcessor.validate_field`: the function's `import re`
statements sit inside the `email` and `validation_pattern` branches, making
`re` a function-local name that is unbound when the `phone` branch runs
(the module imports no `re` at top level). -/
inductive PyErr where
  | unboundLocalRe
deriving DecidableEq

/-- Character classes of the email pattern
`^[a-zA-Z0-9._%+-]+@[a-zA-Z0-9.-]+\.[a-zA-Z]{2,}$`. -/
def isLocalChar (c : Char) : Bool :=
  c.isAlpha || c.isDigit || c = '.' || c = '_' || c = '%' || c = '+' || c = '-'

def isDomainChar (c : Char) : Bool :=
  c.isAlpha || c.isDigit || c = '.' || c = '-'

/-- `re.match` of the email pattern. The local part is forced (its class
excludes `@`); the domain split is an existential over the position of the
final dot (`$` also matches just before one trailing newline). -/
def emailMatch (value : Text) : Bool :=
  let lp := value.takeWhile isLocalChar
  if lp = [] then false
  else
    match value.drop lp.length with
    | '@' :: rest =>
      let body := match rest.getLast? with
        | some '\n' => rest.dropLast
        | _ => rest
      (List.range body.length).any fun k =>
        match body.drop k with
        | '.' :: tail =>
          !(body.take k).isEmpty && (body.take k).all isDomainChar &&
            decide (2 ≤ tail.length) && tail.all Char.isAlpha
        | _ => false
    | _ => false

instance exceptDecEq {ε α : Type} [DecidableEq ε] [DecidableEq α] :
    DecidableEq (Except ε α)
  | .ok a, .ok b =>
    if h : a = b then isTrue (by rw [h]) else isFalse (by intro hc; cases hc; exact h rfl)
  | .error a, .error b =>
    if h : a = b then isTrue (by rw [h]) else isFalse (by intro hc; cases hc; exact h rfl)
  | .ok _, .error _ => isFalse (by intro hc; cases hc)
  | .error _, .ok _ => isFalse (by intro hc; cases hc)

/-- `SmartTargetProcessor.validate_field`. Returns `(is_valid, error_message)`
or the exception described at `PyErr`. -/
def validate_field (f : TargetField) (value : Text) :
    Except PyErr (Bool × String) :=
  if f.field_type = "choice" then
    if ¬ f.choices.contains value then
      .ok (false, "Valor deve ser uma das opções configuradas")
    else .ok (true, "")
  else if f.field_type = "email" then
    if ¬ emailMatch value then .ok (false, "Email inválido")
    else .ok (true, "")
  else if f.field_type = "phone" then
    .error .unboundLocalRe
  else
    match f.validation_pattern with
    | some pat => if ¬ pat value then .ok (false, "Valor não atende ao padrão esperado")
                  else .ok (true, "")
    | none => .ok (true, "")

/-- The greedy backtracking search of
`re.search(rf"{re.escape(trigger)}\s*[:=]?\s*([^.!?;]+)", message, re.IGNORECASE)`
applied after the literal trigger: the engine tries the longest first
whitespace run, then the optional `:`/`=`, then the longest second
whitespace run, and finally needs a non-empty greedy `[^.!?;]+` group. -/
def trigGroupAt (s : Text) : Option Text :=
  let g := s.takeWhile (fun c => ¬ (c = '.' || c = '!' || c = '?' || c = ';'))
  if g = [] then none else some g

def trigAfterColon (s : Text) : Option Text :=
  let w2 := (s.takeWhile pyIsSpace).length
  (List.range (w2 + 1)).reverse.findSome? (fun k => trigGroupAt (s.drop k))

def trigAfterWs (s : Text) : Option Text :=
  match s with
  | c :: r =>
    if c = ':' || c = '=' then
      match trigAfterColon r with
      | some g => some g
      | none => trigAfterColon s
    else trigAfterColon s
  | [] => trigAfterColon s

def trigMatchAt (trigger s : Text) : Option Text :=
  if ciStarts trigger s then
    let rest := s.drop trigger.length
    let w := (rest.takeWhile pyIsSpace).length
    (List.range (w + 1)).reverse.findSome? (fun a => trigAfterWs (rest.drop a))
  else none

/-- `re.search` scans candidate start positions left to right. -/
def trigSearch (trigger : Text) : Text → Option Text
  | [] => trigMatchAt trigger []
  | c :: cs =>
    match trigMatchAt trigger (c :: cs) with
    | some g => some g
    | none => trigSearch trigger cs

/-- `SmartTargetProcessor._simple_pattern_extract`. -/
def simplePatternExtract (message : Text) (f : TargetField) (trigger : Text) :
    Option Text :=
  if f.field_type = "choice" then
    f.choices.find? (fun ch => containsSub (pyLower ch) (pyLower message))
  else if f.field_type = "text" then
    match trigSearch trigger message with
    | some g => some (pyStrip g)
    | none => none
  else none

/-- `SmartTargetProcessor._extract_field_value`: the first trigger whose
lowercase form occurs in the lowercase message short-circuits into
`_simple_pattern_extract`. -/
def extractFieldValue (message : Text) (f : TargetField) : Option Text :=
  match f.prompt_triggers.find?
      (fun trig => containsSub (pyLower trig) (pyLower message)) with
  | some trig => simplePatternExtract message f trig
  | none => none

/-- The field loop of `SmartTargetProcessor.extract_from_message`. A raised
exception from `validate_field` aborts the whole extraction. -/
def extractLoop (message : Text) :
    List TargetField → List (Text × Text) → Except PyErr (List (Text × Text))
  | [], acc => .ok acc
  | f :: fs, acc =>
    match extractFieldValue message f with
    | some v =>
      if v ≠ [] then
        match validate_field f v with
        | .error e => .error e
        | .ok (true, _) => extractLoop message fs (dictInsert acc f.field_name v)
        | .ok (false, _) => extractLoop message fs acc
      else extractLoop message fs acc
    | none => extractLoop message fs acc

/-- `SmartTargetProcessor.extract_from_message`. -/
def extractFromMessage (message : Text) (tc : TargetCapture) :
    Except PyErr (List (Text × Text)) :=
  extractLoop message tc.fields []

/-! ## Conversation phase (core/conversation_strategy.py and the
timmy_vendas tenant copy, whose scoring bodies are identical) -/

/-- The session facts `get_conversation_phase` reads, with Python
truthiness: a missing or empty value is falsy. -/
structure SessionState where
  business_type : Text := []
  volume_clients : Text := []
  current_channels : List Text := []
  pain_points : List Text := []

/-- The incremental `business_info_score` computation of
`ConsultativeStrategy.get_conversation_phase`. -/
def businessInfoScore (st : SessionState) : Nat :=
  let s0 := 0
  let s1 := if st.business_type ≠ [] then s0 + 2 else s0
  let s2 := if st.volume_clients ≠ [] then s1 + 1 else s1
  let s3 := if st.current_channels ≠ [] then s2 + 1 else s2
  if st.pain_points ≠ [] then s3 + 1 else s3

/-- `ConsultativeStrategy.get_conversation_phase`. -/
def getConversationPhase (st : SessionState) : String :=
  if businessInfoScore st < 2 then "discovery"
  else if businessInfoScore st < 4 then "understanding"
  else "positioning"

/-! ## Concrete instances used by the claim theorems -/

/-- A `text`-type required field with the given name and triggers. -/
def mkTextField (name : String) (trigs : List String) : TargetField :=
  { field_name := name.toList, display_name := name.toList,
    field_type := "text", required := true,
    prompt_triggers := trigs.map String.toList }

/-- The end-to-end scenario schema: two required `text` fields,
`business_type` triggered by "negócio" and `volume` triggered by
"clientes". -/
def c6Schema : TargetCapture :=
  { tenant_id := "t".toList, target_name := "cliente_vendas".toList,
    description := [],
    fields := [mkTextField "business_type" ["negócio"],
               mkTextField "volume" ["clientes"]] }

def c6Message : Text :=
  "Tenho um negócio de roupas, atendo 80 clientes por mês".toList

def c6Extracted : List (Text × Text) :=
  [("business_type".toList, "de roupas, atendo 80 clientes por mês".toList),
   ("volume".toList, "por mês".toList)]

def c2Cfg : ResponseConfig := { min_chars := 1, max_chars := 5 }

def c2Text : Text := "aaaaaaaaaa bbbbbbbbbb".toList

def c7Cfg : ResponseConfig := { min_chars := 10, max_chars := 12 }

def c7Text : Text := "ab, cd efghij".toList

def c8Cfg : ResponseConfig := { min_chars := 1, max_chars := 15 }

def c8Text : Text := "aaaa bbbb mas cc dd ee".toList

/-- A `phone`-type field as a tenant would configure it. -/
def c4PhoneField : TargetField :=
  { field_name := "telefone".toList, display_name := "Telefone".toList,
    field_type := "phone" }

/-- A throwaway conversation context for concrete evaluations (none of the
generic formatting paths reads it). -/
def demoCtx : ResponseContext :=
  { user_message := [], conversation_history := [], extracted_info := [],
    intent := [], tenant_id := "t".toList, session_key := "s".toList }

/-! ## Helper lemmas -/

theorem dictGet_insert_same (m : List (Text × Text)) (k v : Text) :
    dictGet (dictInsert m k v) k = some v := by
  induction m with
  | nil => simp [dictInsert, dictGet]
  | cons p rest ih =>
    by_cases h : p.1 = k
    · simp [dictInsert, h, dictGet]
    · simp [dictInsert, h, dictGet, ih]

theorem dictGet_insert_other (m : List (Text × Text)) (k1 k2 v : Text)
    (h : k2 ≠ k1) : dictGet (dictInsert m k1 v) k2 = dictGet m k2 := by
  have h1 : ¬ (k1 = k2) := fun hc => h hc.symm
  induction m with
  | nil =>
    simp only [dictInsert, dictGet]
    rw [if_neg h1]
  | cons p rest ih =>
    by_cases hp : p.1 = k1
    · simp only [dictInsert, if_pos hp, dictGet]
      rw [if_neg h1, if_neg (show ¬ p.1 = k2 by rw [hp]; exact h1)]
    · simp only [dictInsert, if_neg hp, dictGet]
      by_cases hq : p.1 = k2
      · rw [if_pos hq, if_pos hq]
      · rw [if_neg hq, if_neg hq, ih]

/-- A `choice`-type field's `_simple_pattern_extract` only ever returns a
member of its `choices` list. -/
theorem simplePatternExtract_choice_mem (message : Text) (f : TargetField)
    (trigger v : Text) (htype : f.field_type = "choice")
    (h : simplePatternExtract message f trigger = some v) : v ∈ f.choices := by
  unfold simplePatternExtract at h
  rw [htype] at h
  simp only [if_pos rfl] at h
  exact List.mem_of_find?_eq_some h

/-- A `choice`-type field's `_extract_field_value` only ever returns a
member of its `choices` list. -/
theorem extractFieldValue_choice_mem (message : Text) (f : TargetField)
    (v : Text) (htype : f.field_type = "choice")
    (h : extractFieldValue message f = some v) : v ∈ f.choices := by
  unfold extractFieldValue at h
  cases hf : f.prompt_triggers.find?
      (fun trig => containsSub (pyLower trig) (pyLower message)) with
  | none => rw [hf] at h; cases h
  | some trig =>
    rw [hf] at h
    exact simplePatternExtract_choice_mem message f trig v htype h

/-- Invariant of the `extract_from_message` field loop: if every field named
`key` in the remaining list is `choice`-typed with choice list `choices`,
then any value the final dict holds at `key` is a member of `choices`. -/
theorem extractLoop_choice_inv (message : Text) (key : Text)
    (choices : List Text) :
    ∀ (fs : List TargetField) (acc : List (Text × Text)),
      (∀ g ∈ fs, g.field_name = key →
        g.field_type = "choice" ∧ g.choices = choices) →
      (∀ v, dictGet acc key = some v → v ∈ choices) →
      ∀ m, extractLoop message fs acc = .ok m →
        ∀ v, dictGet m key = some v → v ∈ choices := by
  intro fs
  induction fs with
  | nil =>
    intro acc _ hacc m hok v hv
    cases hok
    exact hacc v hv
  | cons f fs ih =>
    intro acc hfs hacc m hok v hv
    simp only [extractLoop] at hok
    cases hval : extractFieldValue message f with
    | none =>
      simp only [hval] at hok
      exact ih acc (fun g hg => hfs g (by simp [hg])) hacc m hok v hv
    | some v0 =>
      simp only [hval] at hok
      by_cases hv0 : v0 ≠ []
      · rw [if_pos hv0] at hok
        cases hvf : validate_field f v0 with
        | error e =>
          simp only [hvf] at hok
          exact Except.noConfusion hok
        | ok r =>
          simp only [hvf] at hok
          obtain ⟨ok, msg⟩ := r
          cases ok with
          | true =>
            refine ih (dictInsert acc f.field_name v0)
              (fun g hg => hfs g (by simp [hg])) ?_ m hok v hv
            intro w hw
            by_cases hk : f.field_name = key
            · rw [hk, dictGet_insert_same] at hw
              cases hw
              rcases hfs f (by simp) hk with ⟨htype, hch⟩
              rw [← hch]
              exact extractFieldValue_choice_mem message f v0 htype hval
            · rw [dictGet_insert_other acc f.field_name key v0
                (fun hc => hk hc.symm)] at hw
              exact hacc w hw
          | false =>
            exact ih acc (fun g hg => hfs g (by simp [hg])) hacc m hok v hv
      · rw [if_neg hv0] at hok
        exact ih acc (fun g hg => hfs g (by simp [hg])) hacc m hok v hv

theorem mem_of_getLast?_eq_some {α : Type} {l : List α} {a : α}
    (h : l.getLast? = some a) : a ∈ l := by
  rcases List.mem_getLast?_eq_getLast (Option.mem_def.mpr h) with ⟨hne, rfl⟩
  exact List.getLast_mem hne

theorem getLast?_cons_of_eq_some {α : Type} {l : List α} {a b : α}
    (h : l.getLast? = some a) : (b :: l).getLast? = some a :=
  Option.mem_def.mp (List.mem_getLast?_cons (Option.mem_def.mpr h))

/-- The `best_break` fold keeps the last qualifying pause point: with
accumulator `acc` it returns the last element of the filtered list, or
`acc` when nothing qualifies. -/
theorem bestBreak_foldl_eq (cfg : ResponseConfig) :
    ∀ (pts : List Nat) (acc : Option Nat),
      List.foldl
        (fun a p => if cfg.min_chars ≤ p && p ≤ cfg.max_chars then some p else a)
        acc pts =
      (match (pts.filter
          (fun p => cfg.min_chars ≤ p && p ≤ cfg.max_chars)).getLast? with
        | some x => some x
        | none => acc) := by
  intro pts
  induction pts with
  | nil => intro acc; simp
  | cons p rest ih =>
    intro acc
    by_cases hq : (cfg.min_chars ≤ p && p ≤ cfg.max_chars) = true
    · rw [List.foldl_cons, if_pos hq, ih (some p), List.filter_cons, if_pos hq]
      cases hl : (rest.filter
          (fun p => cfg.min_chars ≤ p && p ≤ cfg.max_chars)).getLast? with
      | some x =>
        rw [getLast?_cons_of_eq_some hl]
      | none =>
        have hnil := List.getLast?_eq_none_iff.mp hl
        rw [hnil]
        rfl
    · rw [List.foldl_cons, if_neg hq, ih acc, List.filter_cons, if_neg hq]

/-- `best_break` is the latest pause point inside `[min_chars, max_chars]`. -/
theorem bestBreak_eq_getLast_filter (cfg : ResponseConfig) (pts : List Nat) :
    bestBreak cfg pts =
      ((pts.filter
        (fun p => cfg.min_chars ≤ p && p ≤ cfg.max_chars)).getLast?) := by
  unfold bestBreak
  rw [bestBreak_foldl_eq cfg pts none]
  cases (pts.filter
      (fun p => cfg.min_chars ≤ p && p ≤ cfg.max_chars)).getLast? <;> rfl

theorem bestBreak_spec (cfg : ResponseConfig) (pts : List Nat) (b : Nat)
    (h : bestBreak cfg pts = some b) :
    b ∈ pts ∧ cfg.min_chars ≤ b ∧ b ≤ cfg.max_chars := by
  rw [bestBreak_eq_getLast_filter] at h
  have hmem := mem_of_getLast?_eq_some h
  rcases List.mem_filter.mp hmem with ⟨h1, h2⟩
  simp only [Bool.and_eq_true, decide_eq_true_eq] at h2
  exact ⟨h1, h2.1, h2.2⟩

/-- Every recorded pause point lies strictly beyond the scan position: a
match of `[,:;]\s+` consumes at least the punctuation character. -/
theorem pausePointsFuel_gt : ∀ (fuel pos : Nat) (cs : Text) (q : Nat),
    q ∈ pausePointsFuel fuel pos cs → pos < q := by
  intro fuel
  induction fuel with
  | zero => intro pos cs q hq; simp [pausePointsFuel] at hq
  | succ fuel ih =>
    intro pos cs q hq
    cases cs with
    | nil => simp [pausePointsFuel] at hq
    | cons c rest =>
      simp only [pausePointsFuel] at hq
      split at hq
      · rcases List.mem_cons.mp hq with h | h
        · omega
        · have := ih (pos + 1 + (rest.takeWhile pyIsSpace).length) _ q h
          omega
      · have := ih (pos + 1) rest q hq
        omega

theorem pausePoints_pos (t : Text) (q : Nat) (h : q ∈ pausePoints t) :
    0 < q := pausePointsFuel_gt t.length 0 t q h

/-- One unit of extra fuel does not change `breakPausesFuel` once the fuel
covers the text length. -/
theorem breakPausesFuel_succ (cfg : ResponseConfig) :
    ∀ (f : Nat) (t : Text), t.length ≤ f →
      breakPausesFuel cfg (f + 1) t = breakPausesFuel cfg f t := by
  intro f
  induction f with
  | zero =>
    intro t ht
    have hnil : t = [] := List.eq_nil_of_length_eq_zero (Nat.le_zero.mp ht)
    subst hnil
    simp [breakPausesFuel]
  | succ f ih =>
    intro t ht
    by_cases hle : t.length ≤ cfg.max_chars
    · rw [breakPausesFuel, if_pos hle]
      conv_rhs => rw [breakPausesFuel]
      rw [if_pos hle]
    · rw [breakPausesFuel, if_neg hle]
      conv_rhs => rw [breakPausesFuel]
      rw [if_neg hle]
      cases hb : bestBreak cfg (pausePoints t) with
      | none => rfl
      | some b =>
        rcases bestBreak_spec cfg _ b hb with ⟨_, hbmin, hbmax⟩
        have hs1 := length_pyStrip_le (t.take b)
        have hs2 := length_pyStrip_le (t.drop b)
        have ht1 : (t.take b).length = min b t.length := List.length_take b t
        have ht2 : (t.drop b).length = t.length - b := List.length_drop b t
        have h1 : (pyStrip (t.take b)).length ≤ f := by omega
        have h2 : (pyStrip (t.drop b)).length ≤ f := by
          have hbpos : 0 < b :=
            pausePoints_pos t b (bestBreak_spec cfg _ b hb).1
          omega
        show breakPausesFuel cfg (f + 1) (pyStrip (t.take b)) ++
            breakPausesFuel cfg (f + 1) (pyStrip (t.drop b)) =
          breakPausesFuel cfg f (pyStrip (t.take b)) ++
            breakPausesFuel cfg f (pyStrip (t.drop b))
        rw [ih _ h1, ih _ h2]

/-- Any fuel covering the text length computes `breakByNaturalPauses`. -/
theorem breakPausesFuel_adequate (cfg : ResponseConfig) :
    ∀ (d : Nat) (t : Text),
      breakPausesFuel cfg (t.length + d) t = breakByNaturalPauses cfg t := by
  intro d
  induction d with
  | zero => intro t; rfl
  | succ d ih =>
    intro t
    have hstep : t.length + (d + 1) = (t.length + d) + 1 := by omega
    rw [hstep, breakPausesFuel_succ cfg (t.length + d) t (by omega)]
    exact ih t

theorem breakPausesFuel_eq_of_le (cfg : ResponseConfig) (f : Nat) (t : Text)
    (h : t.length ≤ f) :
    breakPausesFuel cfg f t = breakByNaturalPauses cfg t := by
  have hf : f = t.length + (f - t.length) := by omega
  rw [hf]
  exact breakPausesFuel_adequate cfg (f - t.length) t

/-- A unit satisfying the amended bounds property: within `max_chars`, or a
single whitespace-delimited token (up to surrounding whitespace). -/
def unitOk (cfg : ResponseConfig) (u : Text) : Prop :=
  u.length ≤ cfg.max_chars ∨ (pySplitWS u).length ≤ 1

theorem mem_dropWhile_of_neg {p : Char → Bool} {c : Char} :
    ∀ {l : Text}, c ∈ l → p c = false → c ∈ l.dropWhile p := by
  intro l
  induction l with
  | nil => intro h _; cases h
  | cons a l ih =>
    intro hc hp
    by_cases ha : p a = true
    · rw [List.dropWhile_cons_of_pos ha]
      rcases List.mem_cons.mp hc with h | h
      · subst h; rw [hp] at ha; cases ha
      · exact ih h hp
    · rw [List.dropWhile_cons_of_neg ha]
      exact hc

theorem pyStrip_ne_nil_of_mem {cs : Text} {c : Char} (hc : c ∈ cs)
    (hns : pyIsSpace c = false) : pyStrip cs ≠ [] := by
  have h1 : c ∈ cs.dropWhile pyIsSpace := mem_dropWhile_of_neg hc hns
  have h2 : c ∈ (cs.dropWhile pyIsSpace).reverse := by simpa using h1
  have h3 : c ∈ (cs.dropWhile pyIsSpace).reverse.dropWhile pyIsSpace :=
    mem_dropWhile_of_neg h2 hns
  have h4 : c ∈ pyStrip cs := by
    simp only [pyStrip, List.mem_reverse]
    exact h3
  exact List.ne_nil_of_mem h4

/-- The `current_group` of the word-packing loop is flushed through
`strip()`, and both admissible accumulator states give an admissible unit. -/
theorem unitOk_strip_of_state (cfg : ResponseConfig) (cur : Text)
    (h : cur.length ≤ cfg.max_chars ∨
      (cur ≠ [] ∧ ∀ c ∈ cur, pyIsSpace c = false)) :
    unitOk cfg (pyStrip cur) := by
  rcases h with h | ⟨hne, hns⟩
  · left
    exact le_trans (length_pyStrip_le cur) h
  · right
    rw [pyStrip_of_noSpace cur hns, pySplitWS_single_token cur hne hns]
    simp

/-- Invariant of the `_break_by_words` greedy loop: accumulated groups are
admissible units, and the open group is within bounds or a single token. -/
def wordInv (cfg : ResponseConfig) (s : List Text × Text) : Prop :=
  (∀ u ∈ s.1, unitOk cfg u) ∧
    (s.2 = [] ∨ s.2.length ≤ cfg.max_chars ∨
      (s.2 ≠ [] ∧ ∀ c ∈ s.2, pyIsSpace c = false))

theorem wordStep_inv (cfg : ResponseConfig) (s : List Text × Text) (w : Text)
    (hw : w ≠ [] ∧ ∀ c ∈ w, pyIsSpace c = false) (hs : wordInv cfg s) :
    wordInv cfg (wordStep cfg s w) ∧
      ((wordStep cfg s w).1 ≠ [] ∨ (wordStep cfg s w).2 ≠ []) := by
  obtain ⟨gs, cur⟩ := s
  obtain ⟨hgs, hcur⟩ := hs
  obtain ⟨hwne, hwns⟩ := hw
  obtain ⟨c0, hc0⟩ : ∃ c, c ∈ w := by
    cases w with
    | nil => exact absurd rfl hwne
    | cons a l => exact ⟨a, by simp⟩
  simp only [wordStep]
  by_cases htest : (if cur = [] then w
      else pyStrip (cur ++ ' ' :: w)).length ≤ cfg.max_chars
  · rw [if_pos htest]
    refine ⟨⟨hgs, Or.inr (Or.inl htest)⟩, Or.inr ?_⟩
    by_cases hc : cur = []
    · rw [if_pos hc]; exact hwne
    · rw [if_neg hc]
      exact pyStrip_ne_nil_of_mem
        (by simp [hc0]) (hwns c0 hc0)
  · rw [if_neg htest]
    by_cases hc : cur ≠ []
    · rw [if_pos hc]
      refine ⟨⟨?_, Or.inr (Or.inr ⟨hwne, hwns⟩)⟩, Or.inl (by simp)⟩
      intro u hu
      rcases List.mem_append.mp hu with h | h
      · exact hgs u h
      · rcases List.mem_singleton.mp h with rfl
        refine unitOk_strip_of_state cfg cur ?_
        rcases hcur with h0 | h0 | h0
        · exact absurd h0 hc
        · exact Or.inl h0
        · exact Or.inr h0
    · rw [if_neg hc]
      push_neg at hc
      refine ⟨⟨?_, Or.inl hc⟩, Or.inl (by simp)⟩
      intro u hu
      rcases List.mem_append.mp hu with h | h
      · exact hgs u h
      · rcases List.mem_singleton.mp h with rfl
        right
        rw [pySplitWS_single_token u hwne hwns]
        simp

theorem foldl_wordStep_inv (cfg : ResponseConfig) :
    ∀ (ws : List Text) (s : List Text × Text),
      (∀ w ∈ ws, w ≠ [] ∧ ∀ c ∈ w, pyIsSpace c = false) →
      wordInv cfg s →
      wordInv cfg (ws.foldl (wordStep cfg) s) ∧
        (s.1 ≠ [] ∨ s.2 ≠ [] ∨ ws ≠ [] →
          (ws.foldl (wordStep cfg) s).1 ≠ [] ∨
            (ws.foldl (wordStep cfg) s).2 ≠ []) := by
  intro ws
  induction ws with
  | nil =>
    intro s _ hs
    refine ⟨hs, ?_⟩
    rintro (h | h | h)
    · exact Or.inl h
    · exact Or.inr h
    · exact absurd rfl h
  | cons w ws ih =>
    intro s hws hs
    have hstep := wordStep_inv cfg s w (hws w (by simp)) hs
    rw [List.foldl_cons]
    have hrest := ih (wordStep cfg s w) (fun x hx => hws x (by simp [hx]))
      hstep.1
    refine ⟨hrest.1, fun _ => hrest.2 ?_⟩
    rcases hstep.2 with h | h
    · exact Or.inl h
    · exact Or.inr (Or.inl h)

theorem breakByWords_unitOk (cfg : ResponseConfig) (t : Text) :
    ∀ u ∈ breakByWords cfg t, unitOk cfg u := by
  intro u hu
  unfold breakByWords at hu
  by_cases hlen : (pySplitWS t).length ≤ 1
  · rw [if_pos hlen] at hu
    rcases List.mem_singleton.mp hu with rfl
    exact Or.inr hlen
  · rw [if_neg hlen] at hu
    have hclean : ∀ w ∈ pySplitWS t, w ≠ [] ∧ ∀ c ∈ w, pyIsSpace c = false :=
      fun w hw => splitWSAux_words_clean [] t (by simp) w hw
    have hwsne : pySplitWS t ≠ [] := by
      intro hnil
      rw [hnil] at hlen
      exact hlen (by simp)
    have hfold := foldl_wordStep_inv cfg (pySplitWS t) ([], [])
      hclean ⟨by simp, Or.inl rfl⟩
    have hJ := hfold.2 (Or.inr (Or.inr hwsne))
    set st := (pySplitWS t).foldl (wordStep cfg) ([], []) with hst
    have hgne : (if st.2 ≠ [] then st.1 ++ [pyStrip st.2] else st.1) ≠ [] := by
      by_cases h2 : st.2 ≠ []
      · rw [if_pos h2]; simp
      · rw [if_neg h2]
        rcases hJ with h | h
        · exact h
        · exact absurd h h2
    rw [if_neg hgne] at hu
    by_cases h2 : st.2 ≠ []
    · rw [if_pos h2] at hu
      rcases List.mem_append.mp hu with h | h
      · exact hfold.1.1 u h
      · rcases List.mem_singleton.mp h with rfl
        refine unitOk_strip_of_state cfg st.2 ?_
        rcases hfold.1.2 with h0 | h0 | h0
        · exact absurd h0 h2
        · exact Or.inl h0
        · exact Or.inr h0
    · rw [if_neg h2] at hu
      exact hfold.1.1 u hu

theorem breakPausesFuel_unitOk (cfg : ResponseConfig)
    (hmin : 0 < cfg.min_chars) :
    ∀ (f : Nat) (t : Text), t.length ≤ f →
      ∀ u ∈ breakPausesFuel cfg f t, unitOk cfg u := by
  intro f
  induction f with
  | zero =>
    intro t ht u hu
    have hnil : t = [] := List.eq_nil_of_length_eq_zero (Nat.le_zero.mp ht)
    subst hnil
    rcases List.mem_singleton.mp hu with rfl
    exact Or.inl (by simp)
  | succ f ih =>
    intro t ht u hu
    rw [breakPausesFuel] at hu
    by_cases hle : t.length ≤ cfg.max_chars
    · rw [if_pos hle] at hu
      rcases List.mem_singleton.mp hu with rfl
      exact Or.inl hle
    · rw [if_neg hle] at hu
      cases hb : bestBreak cfg (pausePoints t) with
      | none =>
        rw [hb] at hu
        exact breakByWords_unitOk cfg t u hu
      | some b =>
        rw [hb] at hu
        rcases bestBreak_spec cfg _ b hb with ⟨hbmem, hbmin, hbmax⟩
        have hs1 := length_pyStrip_le (t.take b)
        have hs2 := length_pyStrip_le (t.drop b)
        have ht1 : (t.take b).length = min b t.length := List.length_take b t
        have ht2 : (t.drop b).length = t.length - b := List.length_drop b t
        rcases List.mem_append.mp hu with h | h
        · exact ih (pyStrip (t.take b)) (by omega) u h
        · exact ih (pyStrip (t.drop b)) (by omega) u h

theorem breakByNaturalPauses_unitOk (cfg : ResponseConfig)
    (hmin : 0 < cfg.min_chars) (t : Text) :
    ∀ u ∈ breakByNaturalPauses cfg t, unitOk cfg u :=
  breakPausesFuel_unitOk cfg hmin t.length t (le_refl _)

/-- Invariant of the `_group_sentences` loop. -/
def groupInv (cfg : ResponseConfig) (s : List Text × Text) : Prop :=
  (∀ u ∈ s.1, unitOk cfg u) ∧ s.2.length ≤ cfg.max_chars

theorem groupStep_inv (cfg : ResponseConfig) (hmin : 0 < cfg.min_chars)
    (s : List Text × Text) (x : Text) (hs : groupInv cfg s) :
    groupInv cfg (groupStep cfg s x) := by
  obtain ⟨gs, cur⟩ := s
  obtain ⟨hgs, hcur⟩ := hs
  have hflush : ∀ u ∈ (if cur ≠ [] then gs ++ [pyStrip cur] else gs),
      unitOk cfg u := by
    intro u hu
    by_cases hc : cur ≠ []
    · rw [if_pos hc] at hu
      rcases List.mem_append.mp hu with h | h
      · exact hgs u h
      · rcases List.mem_singleton.mp h with rfl
        exact unitOk_strip_of_state cfg cur (Or.inl hcur)
    · rw [if_neg hc] at hu
      exact hgs u hu
  simp only [groupStep]
  by_cases hlong : x.length > cfg.max_chars
  · rw [if_pos hlong]
    refine ⟨?_, by simp⟩
    intro u hu
    rcases List.mem_append.mp hu with h | h
    · exact hflush u h
    · exact breakByNaturalPauses_unitOk cfg hmin x u h
  · rw [if_neg hlong]
    by_cases htest : (if cur = [] then x
        else pyStrip (cur ++ ' ' :: x)).length ≤ cfg.max_chars
    · rw [if_pos htest]
      exact ⟨hgs, htest⟩
    · rw [if_neg htest]
      refine ⟨hflush, ?_⟩
      show x.length ≤ cfg.max_chars
      omega

theorem foldl_groupStep_inv (cfg : ResponseConfig) (hmin : 0 < cfg.min_chars) :
    ∀ (xs : List Text) (s : List Text × Text), groupInv cfg s →
      groupInv cfg (xs.foldl (groupStep cfg) s) := by
  intro xs
  induction xs with
  | nil => intro s hs; exact hs
  | cons x xs ih =>
    intro s hs
    rw [List.foldl_cons]
    exact ih (groupStep cfg s x) (groupStep_inv cfg hmin s x hs)

theorem groupSentences_unitOk (cfg : ResponseConfig)
    (hmin : 0 < cfg.min_chars) (sentences : List Text) :
    ∀ u ∈ groupSentences cfg sentences, unitOk cfg u := by
  intro u hu
  have hinv := foldl_groupStep_inv cfg hmin sentences ([], [])
    ⟨by simp, by simp⟩
  set st := sentences.foldl (groupStep cfg) ([], []) with hst
  have hgs : groupSentences cfg sentences =
      (if st.2 ≠ [] then st.1 ++ [pyStrip st.2] else st.1) := rfl
  rw [hgs] at hu
  by_cases h2 : st.2 ≠ []
  · rw [if_pos h2] at hu
    rcases List.mem_append.mp hu with h | h
    · exact hinv.1 u h
    · rcases List.mem_singleton.mp h with rfl
      exact unitOk_strip_of_state cfg st.2 (Or.inl hinv.2)
  · rw [if_neg h2] at hu
    exact hinv.1 u hu

/-! ## Claim theorems -/

/-- Claim C10: `process_response` on an empty or whitespace-only raw
response returns `messages = [""]` with `total_parts = 0` (the one case in
which `total_parts` differs from `len(messages)`); on every non-blank raw
response, `total_parts` equals the length of `messages`. -/
theorem c10_total_parts (raw : Text) (ctx : ResponseContext)
    (cfg : ResponseConfig) :
    (pyStrip raw = [] →
      (processResponse raw ctx cfg).messages = [[]] ∧
        (processResponse raw ctx cfg).total_parts = 0) ∧
    (pyStrip raw ≠ [] →
      (processResponse raw ctx cfg).total_parts =
        (processResponse raw ctx cfg).messages.length) := by
  constructor
  · intro h
    simp [processResponse, h]
  · intro h
    simp only [processResponse, if_neg h]
    split_ifs <;> rfl

/-- Claim C10 witness: a concrete non-blank response has
`total_parts = len(messages)`. -/
theorem c10_witness :
    (processResponse "ola".toList demoCtx {}).total_parts =
      (processResponse "ola".toList demoCtx {}).messages.length :=
  (c10_total_parts "ola".toList demoCtx {}).2 (by decide)

/-- Claim C1: on any input whose chosen formatting strategy is
`"structured"`, the assembled messages are exactly the segmented intro
units, followed by one atomic unit per parsed item (each item rendered by
its kind template, never split, in original order), followed by the
segmented outro units — so the number of item-derived units equals the
number of items. -/
theorem c1_structured_items_one_unit_each (text : Text)
    (ctx : ResponseContext) (cfg : ResponseConfig)
    (hne : pyStrip text ≠ [])
    (hstrat : chooseFormattingStrategy (analyzeContentStructure text) cfg
      text.length = "structured") :
    (processResponse text ctx cfg).messages =
      (if (parseStructuredContent text).1 ≠ [] then
        breakTextIntelligently cfg (parseStructuredContent text).1 else []) ++
      (parseStructuredContent text).2.1.map (fun it => formatSingleItem it cfg) ++
      (if (parseStructuredContent text).2.2 ≠ [] then
        breakTextIntelligently cfg (parseStructuredContent text).2.2 else []) ∧
    ((parseStructuredContent text).2.1.map
      (fun it => formatSingleItem it cfg)).length =
      (parseStructuredContent text).2.1.length := by
  constructor
  · simp only [processResponse, if_neg hne, hstrat, if_pos]
    rfl
  · exact List.length_map _ _

def c1Text : Text := "Veja:\n1. **A**: aaa\n2. **B**: bbb\n3. **C**: ccc".toList

/-- Claim C1 witness: the amended invariant instantiated on a concrete
three-item structured response. -/
theorem c1_witness :
    (processResponse c1Text demoCtx {}).messages =
      (if (parseStructuredContent c1Text).1 ≠ [] then
        breakTextIntelligently {} (parseStructuredContent c1Text).1 else []) ++
      (parseStructuredContent c1Text).2.1.map
        (fun it => formatSingleItem it {}) ++
      (if (parseStructuredContent c1Text).2.2 ≠ [] then
        breakTextIntelligently {} (parseStructuredContent c1Text).2.2 else []) ∧
    ((parseStructuredContent c1Text).2.1.map
      (fun it => formatSingleItem it {})).length =
      (parseStructuredContent c1Text).2.1.length := by
  refine c1_structured_items_one_unit_each c1Text demoCtx {} (by decide) ?_
  have hc : (analyzeContentStructure c1Text).item_count = 3 := by decide
  simp [chooseFormattingStrategy, hc]

/-- Claim C5: for every utterance and every `choice`-type field of a schema
with unique field names, any value the extractor captures under that
field's name is an exact member of the field's `choices` list. -/
theorem c5_choice_safety (message : Text) (tc : TargetCapture)
    (f : TargetField)
    (hnodup : (tc.fields.map (fun g => g.field_name)).Nodup)
    (hmem : f ∈ tc.fields) (htype : f.field_type = "choice")
    (m : List (Text × Text)) (hok : extractFromMessage message tc = .ok m)
    (v : Text) (hv : dictGet m f.field_name = some v) : v ∈ f.choices := by
  refine extractLoop_choice_inv message f.field_name f.choices tc.fields []
    ?_ ?_ m hok v hv
  · intro g hg hname
    have : g = f := List.inj_on_of_nodup_map hnodup hg hmem hname
    subst this
    exact ⟨htype, rfl⟩
  · intro w hw
    cases hw

def c5Field : TargetField :=
  { field_name := "tipo_consulta".toList,
    display_name := "Tipo de Consulta".toList,
    field_type := "choice",
    choices := ["Primeira consulta".toList, "Retorno".toList,
                "Exame".toList, "Emergência".toList],
    prompt_triggers := ["consulta".toList] }

def c5Schema : TargetCapture :=
  { tenant_id := "t".toList, target_name := "paciente".toList,
    description := [], fields := [c5Field] }

/-- Claim C5 witness: a concrete choice capture lands inside the `choices`
list. -/
theorem c5_witness : "Retorno".toList ∈ c5Field.choices :=
  c5_choice_safety "quero uma consulta de retorno".toList c5Schema
    c5Field (by decide) (by simp [c5Schema]) (by decide)
    [("tipo_consulta".toList, "Retorno".toList)] (by decide)
    "Retorno".toList (by decide)

/-- Claim C4 (code bug): validating a `phone` field is claimed never to
raise and to accept exactly the values whose digit-stripped form has 10 or
11 digits; the code instead raises `UnboundLocalError` on every phone
validation, because its `import re` statements are local to the `email`
and `validation_pattern` branches. Here the value `"(11) 98765-4321"`
strips to 11 digits — valid under the claim — yet `validate_field` raises. -/
theorem c4_phone_validation_raises :
    ("(11) 98765-4321".toList.filter Char.isDigit).length = 11 ∧
      validate_field c4PhoneField "(11) 98765-4321".toList =
        .error .unboundLocalRe := by
  constructor
  · decide
  · decide

/-- Claim C6 (counterexample): extracting from
"Tenho um negócio de roupas, atendo 80 clientes por mês" captures
`volume = "por mês"` — the text after the trigger "clientes" — which does
not contain "80", contrary to the claim's `volume` value "...80...". -/
theorem c6_counterexample :
    extractFromMessage c6Message c6Schema = .ok c6Extracted ∧
      dictGet c6Extracted "volume".toList = some "por mês".toList ∧
      containsSub "80".toList "por mês".toList = false := by
  refine ⟨by decide, by decide, by decide⟩

/-- Claim C6 (amended): the extraction yields non-empty values for both
fields, the `business_type` value contains "roupas", the `volume` value is
the post-trigger text "por mês" (which does not contain "80"), and after
merging the extracted map the completion check returns `True`. -/
theorem c6_amended_end_to_end :
    extractFromMessage c6Message c6Schema = .ok c6Extracted ∧
      dictGet c6Extracted "business_type".toList =
        some "de roupas, atendo 80 clientes por mês".toList ∧
      "de roupas, atendo 80 clientes por mês".toList ≠ [] ∧
      containsSub "roupas".toList "de roupas, atendo 80 clientes por mês".toList = true ∧
      dictGet c6Extracted "volume".toList = some "por mês".toList ∧
      "por mês".toList ≠ [] ∧
      c6Schema.is_complete (dictMerge [] c6Extracted) = true := by
  refine ⟨by decide, by decide, by decide, by decide, by decide, by decide, by decide⟩

/-- Claim C7 (amended): for a text longer than `max_chars`, the natural-pause
tier splits at the latest pause point inside `[min_chars, max_chars]` — the
lower bound does apply — and recursively segments both stripped halves;
when no pause point qualifies (even if pause points at or below `max_chars`
exist below `min_chars`), it falls back to word packing. -/
theorem c7_amended_pause_split (cfg : ResponseConfig) (t : Text)
    (hmin : 0 < cfg.min_chars) (hlen : cfg.max_chars < t.length) :
    breakByNaturalPauses cfg t =
      match ((pausePoints t).filter
          (fun p => cfg.min_chars ≤ p && p ≤ cfg.max_chars)).getLast? with
      | some b =>
        breakByNaturalPauses cfg (pyStrip (t.take b)) ++
          breakByNaturalPauses cfg (pyStrip (t.drop b))
      | none => breakByWords cfg t := by
  have hpos : 0 < t.length := by omega
  obtain ⟨k, hk⟩ : ∃ k, t.length = k + 1 := ⟨t.length - 1, by omega⟩
  have hunf : breakByNaturalPauses cfg t = breakPausesFuel cfg (k + 1) t := by
    rw [← hk]; rfl
  rw [hunf, breakPausesFuel, if_neg (by omega)]
  rw [show bestBreak cfg (pausePoints t) =
    ((pausePoints t).filter
      (fun p => cfg.min_chars ≤ p && p ≤ cfg.max_chars)).getLast? from
    bestBreak_eq_getLast_filter cfg (pausePoints t)]
  cases hb : ((pausePoints t).filter
      (fun p => cfg.min_chars ≤ p && p ≤ cfg.max_chars)).getLast? with
  | none => rfl
  | some b =>
    have hbmem := List.mem_filter.mp (mem_of_getLast?_eq_some hb)
    have hq : cfg.min_chars ≤ b ∧ b ≤ cfg.max_chars := by
      have := hbmem.2
      simp only [Bool.and_eq_true, decide_eq_true_eq] at this
      exact this
    have hs1 := length_pyStrip_le (t.take b)
    have hs2 := length_pyStrip_le (t.drop b)
    have ht1 : (t.take b).length = min b t.length := List.length_take b t
    have ht2 : (t.drop b).length = t.length - b := List.length_drop b t
    show breakPausesFuel cfg k (pyStrip (t.take b)) ++
        breakPausesFuel cfg k (pyStrip (t.drop b)) =
      breakByNaturalPauses cfg (pyStrip (t.take b)) ++
        breakByNaturalPauses cfg (pyStrip (t.drop b))
    rw [breakPausesFuel_eq_of_le cfg k _ (by omega),
        breakPausesFuel_eq_of_le cfg k _ (by omega)]

def c7bCfg : ResponseConfig := { min_chars := 1, max_chars := 12 }

/-- Claim C7 witness: with `min_chars = 1` the pause point 4 of
"ab, cd efghij" qualifies and the text is split there, both halves
recursively segmented. -/
theorem c7_witness :
    breakByNaturalPauses c7bCfg "ab, cd efghij".toList =
      breakByNaturalPauses c7bCfg (pyStrip ("ab, cd efghij".toList.take 4)) ++
        breakByNaturalPauses c7bCfg (pyStrip ("ab, cd efghij".toList.drop 4)) := by
  have h := c7_amended_pause_split c7bCfg "ab, cd efghij".toList
    (by decide) (by decide)
  rw [show ((pausePoints "ab, cd efghij".toList).filter
      (fun p => c7bCfg.min_chars ≤ p && p ≤ c7bCfg.max_chars)).getLast? =
      some 4 from by decide] at h
  exact h

/-- Claim C8 (code bug): the claim (and the docstring of
`_break_text_intelligently`) promise a conjunction-split tier before word
packing, but `_break_by_natural_pauses` falls straight to `_break_by_words`:
on "aaaa bbbb mas cc dd ee" with `max_chars = 15` (no sentence boundary, no
pause point) the output is greedy word packing whose first unit ends in the
conjunction "mas", not the conjunction split
`["aaaa bbbb", "mas cc dd ee"]`. -/
theorem c8_no_conjunction_tier :
    containsSub " mas ".toList c8Text = true ∧
      15 < c8Text.length ∧
      pausePoints c8Text = [] ∧
      breakTextIntelligently c8Cfg c8Text =
        ["aaaa bbbb mas".toList, "cc dd ee".toList] ∧
      breakTextIntelligently c8Cfg c8Text ≠
        ["aaaa bbbb".toList, "mas cc dd ee".toList] := by
  refine ⟨by decide, by decide, by decide, by decide, by decide⟩

/-- Claim C2 (counterexample): on "aaaaaaaaaa bbbbbbbbbb" with
`max_chars = 5`, segmentation emits two oversized units, not "possibly
one": both ten-character tokens come out as their own units. -/
theorem c2_counterexample :
    breakTextIntelligently c2Cfg c2Text =
      ["aaaaaaaaaa".toList, "bbbbbbbbbb".toList] ∧
      ((breakTextIntelligently c2Cfg c2Text).filter
        (fun u => c2Cfg.max_chars < u.length)).length = 2 := by
  refine ⟨by decide, by decide⟩

/-- Claim C2 (amended): for every text and every config with
`0 < min_chars <= max_chars`, every unit produced by the segmentation
engine either has length at most `max_chars` or consists of at most one
whitespace-delimited token — an irreducible token emitted whole, never
fragmented inside the word; several such oversized token units may occur,
not at most one. -/
theorem c2_amended_bounds (cfg : ResponseConfig) (text : Text)
    (hmin : 0 < cfg.min_chars) (hminmax : cfg.min_chars ≤ cfg.max_chars) :
    ∀ u ∈ breakTextIntelligently cfg text,
      u.length ≤ cfg.max_chars ∨ (pySplitWS u).length ≤ 1 := by
  intro u hu
  have heq : breakTextIntelligently cfg text =
      if text.length ≤ cfg.max_chars then [text]
      else if (splitSentences text).length > 1 then
        groupSentences cfg (splitSentences text)
      else breakByNaturalPauses cfg text := rfl
  rw [heq] at hu
  by_cases hle : text.length ≤ cfg.max_chars
  · rw [if_pos hle] at hu
    rcases List.mem_singleton.mp hu with rfl
    exact Or.inl hle
  · rw [if_neg hle] at hu
    by_cases hs : (splitSentences text).length > 1
    · rw [if_pos hs] at hu
      exact groupSentences_unitOk cfg hmin (splitSentences text) u hu
    · rw [if_neg hs] at hu
      exact breakByNaturalPauses_unitOk cfg hmin text u hu

/-- Claim C2 witness: the amended bound instantiated on a concrete split. -/
theorem c2_witness :
    "oi".toList.length ≤ c2Cfg.max_chars ∨
      (pySplitWS "oi".toList).length ≤ 1 :=
  c2_amended_bounds c2Cfg "oi tudo".toList (by decide) (by decide)
    "oi".toList (by decide)

/-- Claim C7 (counterexample): on "ab, cd efghij" with
`min_chars = 10, max_chars = 12`, the only pause point is 4 — at or below
`max_chars`, so under the claim ("no lower bound") the text would be split
there — but the code requires `min_chars <= point` and instead falls back
to word packing, producing different units. -/
theorem c7_counterexample :
    12 < c7Text.length ∧
      pausePoints c7Text = [4] ∧
      4 ≤ c7Cfg.max_chars ∧
      breakByNaturalPauses c7Cfg c7Text = ["ab, cd".toList, "efghij".toList] ∧
      breakByNaturalPauses c7Cfg c7Text ≠
        breakByNaturalPauses c7Cfg (pyStrip (c7Text.take 4)) ++
          breakByNaturalPauses c7Cfg (pyStrip (c7Text.drop 4)) := by
  refine ⟨by decide, by decide, by decide, by decide, by decide⟩

/-- Claim C3: the complexity score equals `0.3 * itemCount`, plus `0.4`
when a `**title**:` pattern is present, plus `0.3` when the text has more
than 3 lines; the chosen strategy is `"structured"` iff the item count is
at least 3 or the score exceeds `0.7`; otherwise the text is handled as
prose (the `"micro"` or `"single"` segmentation paths). -/
theorem c3_complexity_score_and_classification (text : Text)
    (cfg : ResponseConfig) (n : Nat) :
    (analyzeContentStructure text).complexity_score =
      ((analyzeContentStructure text).item_count : ℚ) * (3 / 10) +
        (if (analyzeContentStructure text).has_titles then (4 : ℚ) / 10 else 0) +
        (if (pySplitLines text).length > 3 then (3 : ℚ) / 10 else 0) ∧
    (chooseFormattingStrategy (analyzeContentStructure text) cfg n =
        "structured" ↔
      3 ≤ (analyzeContentStructure text).item_count ∨
        (analyzeContentStructure text).complexity_score > 7 / 10) ∧
    (chooseFormattingStrategy (analyzeContentStructure text) cfg n ≠
        "structured" →
      chooseFormattingStrategy (analyzeContentStructure text) cfg n =
          "micro" ∨
        chooseFormattingStrategy (analyzeContentStructure text) cfg n =
          "single") := by
  refine ⟨?_, ?_, ?_⟩
  · simp only [analyzeContentStructure]
    generalize (if countTitleItems text ≠ 0 then
        max (if countBulletItems text ≠ 0 then
              max (if countNumberedItems text ≠ 0 then
                countNumberedItems text else 0) (countBulletItems text)
             else if countNumberedItems text ≠ 0 then
                countNumberedItems text else 0)
          (countTitleItems text)
      else if countBulletItems text ≠ 0 then
        max (if countNumberedItems text ≠ 0 then
          countNumberedItems text else 0) (countBulletItems text)
      else if countNumberedItems text ≠ 0 then
        countNumberedItems text else 0) = C
    by_cases hC : C > 0
    · by_cases hT : countTitleItems text ≠ 0 <;>
        by_cases hL : (pySplitLines text).length > 3 <;>
          simp [hC, hT, hL] <;> ring
    · have hC0 : C = 0 := by omega
      subst hC0
      by_cases hT : countTitleItems text ≠ 0 <;>
        by_cases hL : (pySplitLines text).length > 3 <;>
          simp [hC, hT, hL]
  · simp only [chooseFormattingStrategy]
    by_cases hcond : (3 ≤ (analyzeContentStructure text).item_count ||
        (analyzeContentStructure text).complexity_score > 7 / 10) = true
    · rw [if_pos hcond]
      simp only [Bool.or_eq_true, decide_eq_true_eq] at hcond
      simpa using hcond
    · rw [if_neg hcond]
      simp only [Bool.or_eq_true, decide_eq_true_eq] at hcond
      push_neg at hcond
      constructor
      · intro hc
        split_ifs at hc <;> exact absurd hc (by decide)
      · intro hc
        rcases hc with h | h
        · exact absurd h (by omega)
        · exact absurd h (by exact not_lt.mpr hcond.2)
  · intro hns
    simp only [chooseFormattingStrategy] at hns ⊢
    split_ifs at hns ⊢ with h1 h2 h3
    · exact absurd rfl hns
    · left; rfl
    · right; rfl
    · left; rfl

/-- Claim C9: the conversation-phase score adds 2 when the business type is
captured and 1 for each of client volume, contact channels and pain points,
and the phase is `discovery` iff the score is below 2, `understanding` iff
it is in `[2, 4)`, and `positioning` iff it is at least 4. -/
theorem c9_phase_score_thresholds (st : SessionState) :
    businessInfoScore st =
      (if st.business_type ≠ [] then 2 else 0) +
        (if st.volume_clients ≠ [] then 1 else 0) +
        (if st.current_channels ≠ [] then 1 else 0) +
        (if st.pain_points ≠ [] then 1 else 0) ∧
      (getConversationPhase st = "discovery" ↔ businessInfoScore st < 2) ∧
      (getConversationPhase st = "understanding" ↔
        2 ≤ businessInfoScore st ∧ businessInfoScore st < 4) ∧
      (getConversationPhase st = "positioning" ↔ 4 ≤ businessInfoScore st) := by
  refine ⟨?_, ?_, ?_, ?_⟩
  · simp only [businessInfoScore]
    split_ifs <;> omega
  · unfold getConversationPhase
    split_ifs with h1 h2
    · simp [h1]
    · constructor
      · intro hc; exact absurd hc (by decide)
      · intro hc; omega
    · constructor
      · intro hc; exact absurd hc (by decide)
      · intro hc; omega
  · unfold getConversationPhase
    split_ifs with h1 h2
    · constructor
      · intro hc; exact absurd hc (by decide)
      · intro hc; omega
    · simp
      omega
    · constructor
      · intro hc; exact absurd hc (by decide)
      · intro hc; omega
  · unfold getConversationPhase
    split_ifs with h1 h2
    · constructor
      · intro hc; exact absurd hc (by decide)
      · intro hc; omega
    · constructor
      · intro hc; exact absurd hc (by decide)
      · intro hc; omega
    · simp
      omega

end Timmy
